import Mathlib

/-!
Verification of the PPanGGOLiN pangenome-graph core (`ppanggolin/pangenome.py`,
`ppanggolin/region.py`) against its natural-language specification.

The Python classes are shallowly embedded: dictionaries become association
lists (`List (K × V)`), Python sets over families become `Finset Nat` (families
are identified by their integer IDs), generators that materialize into lists
become `List`, and code paths that raise exceptions return `Except`.
Gene families are represented by their integer ID; the attributes the claims
need (`named_partition`, multigenic membership) are passed as parameters.
-/

/-- Association-list lookup, modelling Python dict lookup (keys are unique in
all uses below, so first match is the binding). -/
def lookupAssoc {K V : Type} [DecidableEq K] (k : K) : List (K × V) → Option V
  | [] => none
  | (k', v) :: rest => if k' = k then some v else lookupAssoc k rest

/-- Python dict assignment `d[k] = v`: overwrite the binding if the key is
present, otherwise append a new binding (Python dicts keep insertion order). -/
def dictSet {K V : Type} [DecidableEq K] (k : K) (v : V) : List (K × V) → List (K × V)
  | [] => [(k, v)]
  | (k', v') :: rest => if k' = k then (k, v) :: rest else (k', v') :: dictSet k v rest

/-- A gene as the region/border code sees it: its position on its contig and
the integer ID of its gene family. -/
structure CGene where
  position : Nat
  family : Nat
deriving DecidableEq

/-- Stable insertion of a gene into a list sorted by position: the new gene
goes after all genes of smaller-or-equal position (stability, matching
Python's stable `sorted`). -/
def insertByPos (g : CGene) : List CGene → List CGene
  | [] => [g]
  | h :: t => if h.position ≤ g.position then h :: insertByPos g t else g :: h :: t

/-- `sorted(self._genes_getter.values(), key=lambda x: x.position)`:
stable sort of the region's genes by position (`Region.genes`). -/
def sortByPos (l : List CGene) : List CGene :=
  l.foldl (fun acc g => insertByPos g acc) []

/-- A Region's stored genes (`Region._genes_getter.values()`, in insertion
order). The position→gene keys are the genes' own positions, so the values
list carries all the information the embedded methods use. -/
abbrev RegionGenes : Type := List CGene

/-- `[gene.family for gene in self.genes]`: the position-ordered family
sequence of a region (`Region.genes` sorts by position). -/
def famSeq (r : RegionGenes) : List Nat :=
  (sortByPos r).map (fun g => g.family)

/-- `Region.__eq__`: true if the two family sequences are identical, or if
one equals the other read in reverse
(`[gene.family for gene in list(other.genes)[::-1]]`), else false. -/
def regionEqb (r1 r2 : RegionGenes) : Bool :=
  if famSeq r1 = famSeq r2 then true
  else if famSeq r1 = (famSeq r2).reverse then true
  else false

/-- `Spot.__setitem__(name, region)`: if the name is already bound and the
bound region compares unequal (Python `!=`, i.e. the negation of
`Region.__eq__`), raise `KeyError`; otherwise store the region under the
name. -/
def spotSetItem (getter : List (String × RegionGenes)) (name : String)
    (region : RegionGenes) : Except String (List (String × RegionGenes)) :=
  match lookupAssoc name getter with
  | some r1 =>
      if regionEqb r1 region = false then
        Except.error "KeyError: A Region with the same name already exist in spot"
      else Except.ok (dictSet name region getter)
  | none => Except.ok (dictSet name region getter)

/-- The set of gene families of a region (`set` of `Region.families`),
i.e. unordered family content. -/
def famSet (r : RegionGenes) : Finset Nat :=
  (famSeq r).toFinset

/-- A region object of a spot: its identity (Python object identity, needed
because `Region.__hash__` is `id(self)`) together with its stored genes. -/
structure RegionObj where
  oid : Nat
  genes : RegionGenes
deriving DecidableEq

/-- Python comparison `rgp.families == seen_rgp.families` in
`Spot._mk_uniq_content`: `Region.families` is a generator property, so both
sides are freshly created generator objects and `==` compares them by object
identity; the comparison is always `False`. -/
def pyFamiliesGenEq (_r1 _r2 : RegionObj) : Bool := false

/-- `Spot._mk_uniq_content`: for each region of the spot (in registry order),
scan the existing representatives; on a hit add the region to that class, and
if no representative compares equal start a new singleton class keyed by the
region. The table is an association list representative → class members. -/
def mk_uniq_content (regions : List RegionObj) : List (RegionObj × List RegionObj) :=
  regions.foldl
    (fun table rgp =>
      let table' := table.map (fun kv =>
        if pyFamiliesGenEq rgp kv.1 then (kv.1, kv.2 ++ [rgp]) else kv)
      if table.any (fun kv => pyFamiliesGenEq rgp kv.1) then table'
      else table' ++ [(rgp, [rgp])])
    []

/-- `Spot.count_uniq_content`: representative → class size. -/
def count_uniq_content (regions : List RegionObj) : List (RegionObj × Nat) :=
  (mk_uniq_content regions).map (fun kv => (kv.1, kv.2.length))

/-- A contig as `Region.get_bordering_genes` sees it: the list of genes by
position (index i holds the gene at position i) and the circularity flag. -/
structure Contig where
  genes : List CGene
  is_circular : Bool
deriving DecidableEq

/-- Modelled from the spec: `Contig.__getitem__` lives in `ppanggolin/genome.py`
which is not under src/. Per spec §4.2 the walk "wraps from position 0 to the
last position", i.e. Python list indexing where index -1 is the last gene:
valid for -L ≤ i < L, returning the gene at `i mod L`. Out-of-range indices
(unreachable in the walks below for in-range start positions) give `none`. -/
def contigGet (c : Contig) (i : Int) : Option CGene :=
  let L : Int := c.genes.length
  if -L ≤ i ∧ i < L then c.genes[(i % L).toNat]? else none

/-- Loop body of the upstream walk:
`if curr_gene is not None and curr_gene.family not in multigenics and
curr_gene.family.named_partition == "persistent": border[0].append(curr_gene)`. -/
def upCollect (multigenics : Finset Nat) (part : Nat → String)
    (acc : List CGene) (curr : Option CGene) : List CGene :=
  match curr with
  | some g =>
      if g.family ∉ multigenics ∧ part g.family = "persistent" then acc ++ [g]
      else acc
  | none => acc

/-- Loop body of the downstream walk:
`if curr_gene is not None and curr_gene.family not in multigenics:
border[1].append(curr_gene)` — the source does not test the partition here
(region.py line 209). -/
def downCollect (multigenics : Finset Nat)
    (acc : List CGene) (curr : Option CGene) : List CGene :=
  match curr with
  | some g => if g.family ∉ multigenics then acc ++ [g] else acc
  | none => acc

/-- The first (upstream) while-loop of `Region.get_bordering_genes`, walking
from the starter position towards decreasing positions. Carries explicit
fuel so that the loop body stays a structural recursion; the `Bool` result is
`true` when the loop exits through its own guard or `break` (never through
fuel exhaustion). State per iteration: current `pos` and the accumulated
`border[0]` list. -/
def upWalk (c : Contig) (multigenics : Finset Nat) (part : Nat → String)
    (n : Nat) (init : Int) : Nat → Int → List CGene → List CGene × Bool
  | 0, _, acc => (acc, false)
  | fuel + 1, pos, acc =>
    if acc.length < n ∧ (pos ≠ 0 ∨ c.is_circular = true) then
      let curr : Option CGene :=
        if pos = 0 then
          (if c.is_circular then contigGet c (pos - 1) else none)
        else contigGet c (pos - 1)
      let acc' := upCollect multigenics part acc curr
      let pos' := pos - 1
      let pos'' := if pos' = -1 ∧ c.is_circular = true then (c.genes.length : Int) else pos'
      if pos'' = init then (acc', true)
      else upWalk c multigenics part n init fuel pos'' acc'
    else (acc, true)

/-- The second (downstream) while-loop of `Region.get_bordering_genes`,
walking from the stopper position towards increasing positions. -/
def downWalk (c : Contig) (multigenics : Finset Nat)
    (n : Nat) (init : Int) : Nat → Int → List CGene → List CGene × Bool
  | 0, _, acc => (acc, false)
  | fuel + 1, pos, acc =>
    if acc.length < n ∧ (pos ≠ (c.genes.length : Int) - 1 ∨ c.is_circular = true) then
      let curr : Option CGene :=
        if pos = (c.genes.length : Int) - 1 then
          (if c.is_circular then contigGet c 0 else none)
        else contigGet c (pos + 1)
      let acc' := downCollect multigenics acc curr
      let pos' := pos + 1
      let pos'' := if pos' = (c.genes.length : Int) ∧ c.is_circular = true then -1 else pos'
      if pos'' = init then (acc', true)
      else downWalk c multigenics n init fuel pos'' acc'
    else (acc, true)

/-- `Region.get_bordering_genes(n, multigenics)`: one upstream walk from the
starter position and one downstream walk from the stopper position (the
region contributes to this method only through those two positions and its
contig). Fuel `L + 2` is enough for every loop exit reachable from an
in-range start position on a circular contig (proved below); each walk also
reports whether it finished through its guard or a break. -/
def get_bordering_genes (c : Contig) (multigenics : Finset Nat) (part : Nat → String)
    (n : Nat) (startPos stopPos : Nat) : (List CGene × Bool) × (List CGene × Bool) :=
  let fuel := c.genes.length + 2
  (upWalk c multigenics part n startPos fuel startPos [],
   downWalk c multigenics n stopPos fuel stopPos [])

/-- Iterations the upstream loop still needs, on a circular contig of length
`L`, from current position `pos` (which moves init, init-1, …, 0, L, L-1, …,
init+1 and then breaks): the termination measure. -/
def remUp (L init pos : Int) : Nat :=
  if pos ≤ init then (pos + 1 + (L - init)).toNat else (pos - init).toNat

/-- Iterations the downstream loop still needs, on a circular contig of
length `L`, from current position `pos` (which moves init, init+1, …, L-1,
-1, 0, …, init-1 and then breaks). -/
def remDown (L init pos : Int) : Nat :=
  if init ≤ pos then (L + init + 1 - pos).toNat else (init - pos).toNat

/-- A `GeneFamily` of pangenome.py as `removeFamsFrom` handles it: its name
and the `removed` flag. -/
structure GF3 where
  name : String
  removed : Bool
deriving DecidableEq

/-- The call `edge.remove()` in the inner loop of `removeFamsFrom`: the loop
header is `for edge in fams` (pangenome.py line 227), so the receiver is a
`GeneFamily`, which defines no method named `remove`; the attribute access
raises `AttributeError`. -/
def famRemoveCall (_f : GF3) : Except String Unit :=
  Except.error "AttributeError: GeneFamily object has no attribute remove"

/-- Python `del d[k]`: the map without the binding, or `KeyError` when the
key is absent. -/
def delKey {V : Type} (k : String) : List (String × V) → Except String (List (String × V))
  | [] => Except.error "KeyError"
  | (k', v) :: rest =>
      if k' = k then Except.ok rest
      else do
        let rest' ← delKey k rest
        Except.ok ((k', v) :: rest')

/-- The outer loop of `Pangenome.removeFamsFrom`: for each family of `fams`,
run `for edge in fams: edge.remove()`, then `del self._famGetter[fam.name]`.
(The following `fam.removed = True` mutates the family object, not the
registry; it is unreachable because the inner loop always raises on its
first element whenever `fams` is nonempty.) -/
def removeLoop (allFams : List GF3) :
    List GF3 → List (String × GF3) → Except String (List (String × GF3))
  | [], reg => Except.ok reg
  | fam :: rest, reg => do
    allFams.forM famRemoveCall
    let reg' ← delKey fam.name reg
    removeLoop allFams rest reg'

/-- `Pangenome.removeFamsFrom(fams)`: remember the registry size, run the
removal loop, and raise the consistency `Exception` when the registry did
not shrink by exactly `len(fams)`. -/
def removeFamsFrom (reg : List (String × GF3)) (fams : List GF3) :
    Except String (List (String × GF3)) := do
  let oldSize := reg.length
  let reg' ← removeLoop fams fams reg
  if reg'.length + fams.length = oldSize then Except.ok reg'
  else Except.error "Problems in the family removal from the pangenome."

/-- A Python dict key of the family registry: `_famGetter` is populated with
string names (`_createGeneFamily`), but `subgraph` indexes it with integer
IDs — a lookup of an `i` key in a registry holding only `s` keys misses. -/
inductive PyKey where
  | s (v : String)
  | i (v : Nat)
deriving DecidableEq

/-- The pangenome data `connectedComponents` uses: the family registry
`_famGetter` (key → family ID), each family's name and neighbor IDs, and the
`max_fam_id` counter. -/
structure Pan2 where
  famGetter : List (PyKey × Nat)
  famName : Nat → String
  nbrs : Nat → List Nat
  maxFamId : Nat

/-- `Pangenome.addGeneFamily(name)`: get-or-create by name; on creation the
new family gets the next ID and is registered under its name. -/
def addGeneFamily2 (p : Pan2) (name : String) : Pan2 × Nat :=
  match lookupAssoc (PyKey.s name) p.famGetter with
  | some fid => (p, fid)
  | none =>
      ({ p with
          famGetter := p.famGetter ++ [(PyKey.s name, p.maxFamId)],
          famName := fun j => if j = p.maxFamId then name else p.famName j,
          maxFamId := p.maxFamId + 1 }, p.maxFamId)

/-- The body of `Pangenome.subgraph`'s for-loop over `famIds`: it evaluates
`self._famGetter[famID]` — but `_famGetter` is keyed by family *name*
(a string) while `famID` is the integer ID of a family freshly created in
the new pangenome, so the lookup raises `KeyError`; were a binding found,
`g._famGetter[famID]` would likewise raise, and the assignment
`....neighbors = {...}` would raise `AttributeError` because
`GeneFamily.neighbors` is a read-only property (no setter). -/
def subgraphLoop (p g : Pan2) : List Nat → Except String Pan2
  | [] => Except.ok g
  | fid :: _rest =>
      match lookupAssoc (PyKey.i fid) p.famGetter with
      | none => Except.error "KeyError"
      | some _selfFam =>
          match lookupAssoc (PyKey.i fid) g.famGetter with
          | none => Except.error "KeyError"
          | some _ => Except.error "AttributeError: cannot set attribute neighbors"

/-- `Pangenome.subgraph(famSet)`: create a fresh pangenome holding families
of the same names, collect the new IDs, then run the neighbor-wiring loop. -/
def subgraph2 (p : Pan2) (famSet : List Nat) : Except String Pan2 :=
  let start : Pan2 × List Nat :=
    (⟨[], fun _ => "", fun _ => [], 0⟩, [])
  let gAndIds := famSet.foldl
    (fun st fid =>
      let r := addGeneFamily2 st.1 (p.famName fid)
      (r.1, st.2 ++ [r.2]))
    start
  subgraphLoop p gAndIds.1 gAndIds.2.dedup

/-- The inner for-loop of one level of `Pangenome._plain_bfs`: yield (append
to `seen`) each unseen family of `thislevel` and add its neighbors to
`nextlevel` (sets are modelled by lists without duplicates). -/
def bfsStep (nbrs : Nat → List Nat) :
    List Nat → List Nat → List Nat → List Nat × List Nat
  | [], seen, nextlevel => (seen, nextlevel)
  | v :: rest, seen, nextlevel =>
      if v ∈ seen then bfsStep nbrs rest seen nextlevel
      else bfsStep nbrs rest (seen ++ [v])
        (nextlevel ++ (nbrs v).filter (fun w => w ∉ nextlevel))

/-- `Pangenome._plain_bfs(source)`: the while-loop over levels, with fuel
(each level sees at least one new family, so any fuel beyond the family
count leaves the result unchanged); returns the yielded set. -/
def plainBfs (nbrs : Nat → List Nat) : Nat → List Nat → List Nat → List Nat
  | 0, seen, _ => seen
  | _ + 1, seen, [] => seen
  | fuel + 1, seen, nextlevel =>
      let st := bfsStep nbrs nextlevel seen []
      plainBfs nbrs fuel st.1 st.2

/-- `Pangenome.connectedComponents()`: for each family (in the given
iteration order over the family set), if unseen, compute its component by
BFS, yield `subgraph` of it, and add it to `seen`. The lazy generator is
materialized; the first exception aborts it, as calling `next` would. -/
def connectedComponents2 (p : Pan2) (order : List Nat) : Except String (List Pan2) :=
  (order.foldlM
    (fun st v =>
      if v ∈ st.2 then Except.ok st
      else do
        let comp := plainBfs p.nbrs (p.maxFamId + 2) [] [v]
        let sub ← subgraph2 p comp
        Except.ok (st.1 ++ [sub], st.2 ++ comp))
    (([], []) : List Pan2 × List Nat)).map (fun st => st.1)

/-- A gene as `Pangenome.addEdge` sees it: its ID and its (possibly absent,
`None`) family ID. -/
structure PGene8 where
  gid : Nat
  family : Option Nat
deriving DecidableEq

/-- The content of an `Edge` object: the `source`/`target` family attributes
and the per-organism gene-pair lists (`organisms` defaultdict flattened into
a list of (organism, sourceGene, targetGene) in append order). -/
structure EdgeObj where
  source : Nat
  target : Option Nat
  pairs : List (Nat × Nat × Nat)
deriving DecidableEq

/-- The pangenome state `addEdge` touches: each family's `_edges` dict
(neighbor family key → index into the edge arena; the arena models `Edge`
objects shared between both families' dicts and `_edgeGetter`), and
`_edgeGetter` (frozenset of the two genes' families → edge index). -/
structure PanState where
  famEdges : List (Nat × List (Option Nat × Nat))
  arena : List EdgeObj
  edgeGetter : List (Finset (Option Nat) × Nat)
deriving DecidableEq

/-- A family's `_edges` dict (empty when the family was never touched). -/
def getFamEdges (st : PanState) (f : Nat) : List (Option Nat × Nat) :=
  (lookupAssoc f st.famEdges).getD []

/-- Store a family's `_edges` dict back. -/
def setFamEdges (st : PanState) (f : Nat) (m : List (Option Nat × Nat)) : PanState :=
  { st with famEdges := dictSet f m st.famEdges }

/-- Apply `f` to the list element at index `i` (in-place mutation of the
shared `Edge` object in the arena). -/
def modifyAt {α : Type} (f : α → α) : Nat → List α → List α
  | _, [] => []
  | 0, x :: xs => f x :: xs
  | n + 1, x :: xs => x :: modifyAt f n xs

/-- `Pangenome.addEdge(gene1, gene2, org)` together with `Edge.__init__` /
`Edge.addGenes`. The key is the frozenset of the two genes' families
(possibly containing `None`). On reuse, `addGenes` appends the gene pair
under the organism. On creation, `Edge.__init__` sets `self.source` /
`self.target` from the genes' families and then runs
`self.source._edges[self.target] = self`: when gene1 has no family this
attribute access on `None` raises `AttributeError` with nothing modified;
otherwise it stores the edge under the key `gene2.family` (possibly `None`)
in gene1's family's `_edges`, and only then does
`self.target._edges[self.source] = self` raise `AttributeError` when gene2
has no family — leaving gene1's family's dict already mutated. Errors carry
the state as mutated so far. -/
def addEdge (st : PanState) (g1 g2 : PGene8) (org : Nat) :
    Except (String × PanState) (PanState × Nat) :=
  let key : Finset (Option Nat) := {g1.family, g2.family}
  match lookupAssoc key st.edgeGetter with
  | some eid =>
      Except.ok
        ({ st with
            arena := modifyAt
              (fun e => { e with pairs := e.pairs ++ [(org, g1.gid, g2.gid)] })
              eid st.arena }, eid)
  | none =>
      match g1.family with
      | none => Except.error ("AttributeError: NoneType object has no attribute _edges", st)
      | some f1 =>
          let eid := st.arena.length
          let st1 := setFamEdges st f1 (dictSet g2.family eid (getFamEdges st f1))
          match g2.family with
          | none =>
              Except.error ("AttributeError: NoneType object has no attribute _edges", st1)
          | some f2 =>
              let st2 := setFamEdges st1 f2 (dictSet (some f1) eid (getFamEdges st1 f2))
              let newEdge : EdgeObj :=
                { source := f1, target := some f2, pairs := [(org, g1.gid, g2.gid)] }
              Except.ok
                ({ st2 with
                    arena := st2.arena ++ [newEdge],
                    edgeGetter := dictSet key eid st2.edgeGetter }, eid)

/-- The family-adjacency graph `findCliques` explores: the family-ID set
(`Pangenome.geneFamilies`) and each family's neighbor set
(`GeneFamily.neighbors`, the keys of `_edges`). Python sets are modelled by
lists (membership is what the algorithm consumes; the list order stands for
the set's iteration order). -/
structure FamGraph where
  fams : List Nat
  nbrs : Nat → List Nat

/-- `max(subg, key=lambda u: len(cand & u.neighbors))`: the first element of
`subg` (in iteration order) whose candidate-neighbor count is maximal. -/
def pivot (G : Nat → List Nat) (subg cand : List Nat) : Nat :=
  subg.foldl
    (fun best u =>
      if (cand.filter (fun f => f ∈ G best)).length <
          (cand.filter (fun f => f ∈ G u)).length then u else best)
    (subg.headD 0)

/-- `ext_u = cand - u.neighbors` for the frame's pivot `u`. -/
def extList (G : Nat → List Nat) (subg cand : List Nat) : List Nat :=
  cand.filter (fun f => f ∉ G (pivot G subg cand))

/-- The clique-search loop of `Pangenome.findCliques` — a Bron–Kerbosch
search with pivoting, written in the source as a while-loop over an explicit
stack of `(subg, cand, ext_u)` frames; embedded as the equivalent recursion
(the stack push/pop is the call/return). `Q` is the current clique prefix,
`ext` the current frame's remaining `ext_u` elements; popping `q` removes it
from `cand`, a frame whose `subg_q` is empty yields `Q + [q]`, a frame with
nonempty `cand_q` recurses. Fuel only caps the recursion depth so the
definition is structural; `findCliques` supplies enough for the whole search
and the soundness theorem holds for every fuel. -/
def bk (G : Nat → List Nat) :
    Nat → List Nat → List Nat → List Nat → List Nat → List (List Nat)
  | 0, _, _, _, _ => []
  | _ + 1, _, _, _, [] => []
  | fuel + 1, Q, subg, cand, q :: rest =>
    if q ∈ cand then
      let cand' := cand.erase q
      let subg_q := subg.filter (fun f => f ∈ G q)
      (if subg_q = [] then [Q ++ [q]]
       else
         let cand_q := cand'.filter (fun f => f ∈ G q)
         if cand_q = [] then []
         else bk G fuel (Q ++ [q]) subg_q cand_q (extList G subg_q cand_q)) ++
      bk G fuel Q subg cand' rest
    else bk G fuel Q subg cand rest

/-- The family set `findCliques` actually searches: the given set, or every
gene family when the given set is empty. -/
def searched (G : FamGraph) (fams : List Nat) : List Nat :=
  if fams = [] then G.fams else fams

/-- `Pangenome.findCliques(fams)`: nothing to do on an empty search set;
otherwise run the search from the initial frame `subg = cand = fams`,
`ext_u = cand - pivot.neighbors`. -/
def findCliques (G : FamGraph) (fams : List Nat) : List (List Nat) :=
  let S := searched G fams
  if S = [] then []
  else bk G.nbrs ((S.length + 2) * (S.length + 2)) [] S S (extList G.nbrs S S)

/-- Modelled from the spec: `Pangenome.get_multigenics` is not present in
`src/ppanggolin/pangenome.py` (the file predates that method); modelled from
spec §4.1/§8: a family with a partition tag and, for each organism that
contains the family, the number of member genes in that organism. -/
structure MFam where
  fid : Nat
  partitionTag : String
  orgGeneCounts : List Nat
deriving DecidableEq

/-- Modelled from the spec: the fraction of the family's organisms that
contain more than one member gene of the family. -/
def dupFraction (f : MFam) : ℚ :=
  ((f.orgGeneCounts.filter (fun c => 1 < c)).length : ℚ) / (f.orgGeneCounts.length : ℚ)

/-- Modelled from the spec: `get_multigenics(threshold)` returns the
persistent-partition families whose duplication fraction meets or exceeds the
threshold. -/
def get_multigenics (t : ℚ) (fams : List MFam) : List MFam :=
  fams.filter (fun f => f.partitionTag = "persistent" ∧ t ≤ dupFraction f)

/-! ### Concrete instances used by the counterexamples and witnesses -/

/-- A family graph with one edge 0–1 and an isolated family 2. -/
def Gex : FamGraph :=
  ⟨[0, 1, 2], fun n => if n = 0 then [1] else if n = 1 then [0] else []⟩

/-- A circular contig with three genes, of families 10, 11 and 12. -/
def c3ex : Contig := ⟨[⟨0, 10⟩, ⟨1, 11⟩, ⟨2, 12⟩], true⟩

/-- A linear contig with two genes, of families 10 and 11. -/
def c2lin : Contig := ⟨[⟨0, 10⟩, ⟨1, 11⟩], false⟩

/-- A partition assignment under which family 10 is persistent and every
other family is shell. -/
def partEx : Nat → String := fun f => if f = 10 then "persistent" else "shell"

/-- A partition assignment under which every family is persistent. -/
def partAll : Nat → String := fun _ => "persistent"

/-- A pangenome holding the single family named "A" (ID 0, no edges). -/
def exPan : Pan2 := ⟨[(PyKey.s "A", 0)], fun _ => "A", fun _ => [], 1⟩

/-- A pangenome state with one family (ID 5) whose `_edges` dict is empty. -/
def stC8 : PanState := ⟨[(5, [])], [], []⟩

/-- The persistent family of spec §8's example: present in 10 organisms,
with more than one member gene in exactly one of them. -/
def mfamEx : MFam := ⟨0, "persistent", [2, 1, 1, 1, 1, 1, 1, 1, 1, 1]⟩

/-- A one-gene region of family 1 at position 0. -/
def regA : RegionGenes := [⟨0, 1⟩]

/-- A one-gene region of family 2 at position 0. -/
def regB : RegionGenes := [⟨0, 2⟩]

/-! ### Theorems -/

theorem lookupAssoc_dictSet_self {K V : Type} [DecidableEq K] (k : K) (v : V)
    (m : List (K × V)) : lookupAssoc k (dictSet k v m) = some v := by
  induction m with
  | nil => simp [dictSet, lookupAssoc]
  | cons kv rest ih =>
      by_cases h : kv.1 = k
      · simp [dictSet, h, lookupAssoc]
      · simpa [dictSet, h, lookupAssoc] using ih

/-- C6: `Region.__eq__` holds iff the position-ordered family sequences match
read forward or read in reverse; the relation is symmetric, a region whose
family sequence is the reverse of another's equals it, and two regions whose
family sequences match in neither direction compare unequal. -/
theorem region_eq_spec :
    (∀ r1 r2 : RegionGenes, regionEqb r1 r2 = true ↔
      (famSeq r1 = famSeq r2 ∨ famSeq r1 = (famSeq r2).reverse)) ∧
    (∀ r1 r2 : RegionGenes, regionEqb r1 r2 = regionEqb r2 r1) ∧
    (∀ r1 r2 : RegionGenes, famSeq r2 = (famSeq r1).reverse → regionEqb r1 r2 = true) ∧
    (∀ r1 r2 : RegionGenes, famSeq r1 ≠ famSeq r2 → famSeq r1 ≠ (famSeq r2).reverse →
      regionEqb r1 r2 = false) := by
  have hiff : ∀ r1 r2 : RegionGenes, regionEqb r1 r2 = true ↔
      (famSeq r1 = famSeq r2 ∨ famSeq r1 = (famSeq r2).reverse) := by
    intro r1 r2
    unfold regionEqb
    split_ifs with h1 h2
    · simp [h1]
    · simp [h2]
    · simp [h1, h2]
  have flip : ∀ r1 r2 : RegionGenes,
      (famSeq r1 = famSeq r2 ∨ famSeq r1 = (famSeq r2).reverse) →
      (famSeq r2 = famSeq r1 ∨ famSeq r2 = (famSeq r1).reverse) := by
    rintro r1 r2 (h | h)
    · exact Or.inl h.symm
    · right
      rw [h, List.reverse_reverse]
  refine ⟨hiff, ?_, ?_, ?_⟩
  · intro r1 r2
    by_cases h : regionEqb r1 r2 = true
    · rw [h, Eq.comm, hiff]
      exact flip r1 r2 ((hiff r1 r2).mp h)
    · have h' : ¬ regionEqb r2 r1 = true := fun hh =>
        h ((hiff r1 r2).mpr (flip r2 r1 ((hiff r2 r1).mp hh)))
      rw [Bool.not_eq_true] at h h'
      rw [h, h']
  · intro r1 r2 h
    refine (hiff r1 r2).mpr (Or.inr ?_)
    rw [h, List.reverse_reverse]
  · intro r1 r2 h1 h2
    have : ¬ regionEqb r1 r2 = true := fun hh => by
      rcases (hiff r1 r2).mp hh with h | h
      · exact h1 h
      · exact h2 h
    rwa [Bool.not_eq_true] at this

/-- C7 (failing input): two one-gene regions carrying the same family 1 have
equal family sets, yet `_mk_uniq_content` puts them in two distinct singleton
classes — the comparison `rgp.families == seen_rgp.families` compares two
freshly created generator objects by identity and is always False — so
`get_uniq_content`/`count_uniq_content` do not group the spot's regions by
unordered family-set equality (contradicting the method's own docstring
"cluster RGP into groups that have identical gene content"). -/
theorem uniq_content_not_grouped :
    famSet (⟨0, [⟨0, 1⟩]⟩ : RegionObj).genes = famSet (⟨1, [⟨0, 1⟩]⟩ : RegionObj).genes ∧
    mk_uniq_content [⟨0, [⟨0, 1⟩]⟩, ⟨1, [⟨0, 1⟩]⟩] =
      [(⟨0, [⟨0, 1⟩]⟩, [⟨0, [⟨0, 1⟩]⟩]), (⟨1, [⟨0, 1⟩]⟩, [⟨1, [⟨0, 1⟩]⟩])] ∧
    count_uniq_content [⟨0, [⟨0, 1⟩]⟩, ⟨1, [⟨0, 1⟩]⟩] =
      [(⟨0, [⟨0, 1⟩]⟩, 1), (⟨1, [⟨0, 1⟩]⟩, 1)] :=
  ⟨rfl, rfl, rfl⟩

/-- C10: when `name` is already bound to `r1` in the spot's region registry,
the assignment `spot[name] = r2` raises `KeyError` exactly when `r1 != r2`
under Region (synteny) equality; when `r1 == r2` under that equality, the
assignment succeeds and silently rebinds the name to `r2` — duplicate-name
detection compares regions by family-sequence equality, not object identity. -/
theorem spot_setitem_spec (getter : List (String × RegionGenes)) (name : String)
    (r1 r2 : RegionGenes) (h : lookupAssoc name getter = some r1) :
    ((∃ msg, spotSetItem getter name r2 = Except.error msg) ↔ regionEqb r1 r2 = false) ∧
    (regionEqb r1 r2 = true →
      spotSetItem getter name r2 = Except.ok (dictSet name r2 getter) ∧
      lookupAssoc name (dictSet name r2 getter) = some r2) := by
  unfold spotSetItem
  rw [h]
  dsimp only
  split_ifs with hc
  · constructor
    · exact ⟨fun _ => hc, fun _ => ⟨_, rfl⟩⟩
    · intro ht
      rw [ht] at hc
      cases hc
  · constructor
    · constructor
      · rintro ⟨msg, hm⟩
        cases hm
      · intro hf
        exact absurd hf hc
    · intro _
      exact ⟨rfl, lookupAssoc_dictSet_self name r2 getter⟩

theorem spot_setitem_spec_witness :
    ((∃ msg, spotSetItem [("r", regA)] "r" regB = Except.error msg) ↔
      regionEqb regA regB = false) ∧
    (regionEqb regA regB = true →
      spotSetItem [("r", regA)] "r" regB = Except.ok (dictSet "r" regB [("r", regA)]) ∧
      lookupAssoc "r" (dictSet "r" regB [("r", regA)]) = some regB) :=
  spot_setitem_spec [("r", regA)] "r" regA regB rfl

/-- C3 (failing input): with registry {"A": famA} and fams = {famA} (no edges
anywhere), `removeFamsFrom` raises `AttributeError`: its inner loop iterates
`fams` itself and calls `.remove()` on a GeneFamily, which has no such
method; no edge is detached and the family is not deleted. With empty `fams`
the loops do not run and the size check passes. -/
theorem removeFamsFrom_raises :
    removeFamsFrom [("A", ⟨"A", false⟩)] [⟨"A", false⟩] =
      Except.error "AttributeError: GeneFamily object has no attribute remove" ∧
    removeFamsFrom [("A", ⟨"A", false⟩)] [] = Except.ok [("A", ⟨"A", false⟩)] :=
  ⟨rfl, rfl⟩

/-- C2 (failing input): on a pangenome with the single family "A" (ID 0, no
edges), `_plain_bfs` correctly reaches exactly that family, but
`connectedComponents` raises `KeyError` while building the first component's
subgraph (`subgraph` indexes the name-keyed registry with an integer ID), so
no component is ever yielded. -/
theorem connectedComponents_raises :
    plainBfs exPan.nbrs 3 [] [0] = [0] ∧
    connectedComponents2 exPan [0] = Except.error "KeyError" :=
  ⟨rfl, rfl⟩

/-- C8 (counterexample): gene 1 has family 5 and gene 2 has no family:
`addEdge` fails (with the generic `AttributeError` of accessing
`None._edges`, not an `InvalidGraphError`) — but family 5's `_edges` dict has
already acquired an entry under the key `None`, so "no registry is modified"
is false at this input. -/
theorem addEdge_mutates_before_raising :
    addEdge stC8 ⟨1, some 5⟩ ⟨2, none⟩ 0 =
      Except.error ("AttributeError: NoneType object has no attribute _edges",
        ⟨[(5, [(none, 0)])], [], []⟩) ∧
    (⟨[(5, [(none, 0)])], [], []⟩ : PanState) ≠ stC8 :=
  ⟨rfl, by decide⟩

/-- C9 (spec-modelled): `get_multigenics(t)` returns exactly the families
whose partition is persistent and whose fraction of organisms containing
more than one member gene is at least `t`; the persistent family present in
10 organisms and duplicated in exactly 1 of them is returned for t = 0.05
and not returned for t = 0.5. -/
theorem get_multigenics_spec :
    (∀ (t : ℚ) (fams : List MFam) (f : MFam),
      f ∈ get_multigenics t fams ↔
        (f ∈ fams ∧ f.partitionTag = "persistent" ∧ t ≤ dupFraction f)) ∧
    mfamEx ∈ get_multigenics (5 / 100) [mfamEx] ∧
    mfamEx ∉ get_multigenics (5 / 10) [mfamEx] := by
  refine ⟨?_, ?_, ?_⟩
  · intro t fams f
    simp [get_multigenics, List.mem_filter, decide_eq_true_eq, and_assoc]
  · have h1 : (5 : ℚ) / 100 ≤ dupFraction mfamEx := by norm_num [dupFraction, mfamEx]
    simp [get_multigenics, List.mem_filter, h1]
    rfl
  · have h1 : ¬ ((5 : ℚ) / 10 ≤ dupFraction mfamEx) := by norm_num [dupFraction, mfamEx]
    simp [get_multigenics, List.mem_filter, h1]


/-- C8 (amended): when the unordered family pair is not yet a key of
`_edgeGetter`: if gene1 has no family, `addEdge` fails (raising the generic
`AttributeError` of accessing `None._edges`) with the state unchanged; if
only gene2 has no family, it fails after gene1's family's `_edges` dict has
already acquired an entry under the key `None`; when both genes have
families, `addEdge` creates the Edge — registered in `_edgeGetter` under the
unordered pair of the two families and holding the single gene pair under
the organism. When the pair is already a key, the existing Edge is reused
and the gene pair appended, with registries otherwise untouched. -/
theorem addEdge_amended (st : PanState) (g1 g2 : PGene8) (org : Nat) :
    (lookupAssoc ({g1.family, g2.family} : Finset (Option Nat)) st.edgeGetter = none →
      g1.family = none →
      addEdge st g1 g2 org =
        Except.error ("AttributeError: NoneType object has no attribute _edges", st)) ∧
    (lookupAssoc ({g1.family, g2.family} : Finset (Option Nat)) st.edgeGetter = none →
      ∀ f1, g1.family = some f1 → g2.family = none →
      addEdge st g1 g2 org =
        Except.error ("AttributeError: NoneType object has no attribute _edges",
          setFamEdges st f1 (dictSet none st.arena.length (getFamEdges st f1)))) ∧
    (lookupAssoc ({g1.family, g2.family} : Finset (Option Nat)) st.edgeGetter = none →
      ∀ f1 f2, g1.family = some f1 → g2.family = some f2 →
      ∃ st', addEdge st g1 g2 org = Except.ok (st', st.arena.length) ∧
        lookupAssoc ({g1.family, g2.family} : Finset (Option Nat)) st'.edgeGetter =
          some st.arena.length ∧
        st'.arena = st.arena ++ [⟨f1, some f2, [(org, g1.gid, g2.gid)]⟩]) ∧
    (∀ eid,
      lookupAssoc ({g1.family, g2.family} : Finset (Option Nat)) st.edgeGetter = some eid →
      ∃ st', addEdge st g1 g2 org = Except.ok (st', eid) ∧
        st'.arena = modifyAt
          (fun e => { e with pairs := e.pairs ++ [(org, g1.gid, g2.gid)] }) eid st.arena ∧
        st'.famEdges = st.famEdges ∧ st'.edgeGetter = st.edgeGetter) := by
  refine ⟨?_, ?_, ?_, ?_⟩
  · intro hkey h1
    rw [h1] at hkey
    simp only [addEdge, h1, hkey]
  · intro hkey f1 h1 h2
    rw [h1, h2] at hkey
    simp only [addEdge, h1, h2, hkey]
  · intro hkey f1 f2 h1 h2
    rw [h1, h2] at hkey
    simp only [addEdge, h1, h2, hkey]
    exact ⟨_, rfl, lookupAssoc_dictSet_self _ _ _, rfl⟩
  · intro eid hkey
    simp only [addEdge, hkey]
    exact ⟨_, rfl, rfl, rfl, rfl⟩

theorem upCollect_mem (mg : Finset Nat) (part : Nat → String) (acc : List CGene)
    (curr : Option CGene) :
    ∀ g ∈ upCollect mg part acc curr,
      g ∈ acc ∨ (g.family ∉ mg ∧ part g.family = "persistent") := by
  intro g hg
  cases curr with
  | none => exact Or.inl hg
  | some g' =>
      simp only [upCollect] at hg
      split_ifs at hg with h
      · rcases List.mem_append.mp hg with h' | h'
        · exact Or.inl h'
        · rw [List.mem_singleton] at h'
          subst h'
          exact Or.inr h
      · exact Or.inl hg

theorem upCollect_len (mg : Finset Nat) (part : Nat → String) (acc : List CGene)
    (curr : Option CGene) :
    (upCollect mg part acc curr).length ≤ acc.length + 1 := by
  cases curr with
  | none => simp [upCollect]
  | some g' =>
      simp only [upCollect]
      split_ifs <;> simp

theorem downCollect_mem (mg : Finset Nat) (acc : List CGene) (curr : Option CGene) :
    ∀ g ∈ downCollect mg acc curr, g ∈ acc ∨ g.family ∉ mg := by
  intro g hg
  cases curr with
  | none => exact Or.inl hg
  | some g' =>
      simp only [downCollect] at hg
      by_cases h : g'.family ∉ mg
      · rw [if_pos h] at hg
        rcases List.mem_append.mp hg with h' | h'
        · exact Or.inl h'
        · rw [List.mem_singleton] at h'
          subst h'
          exact Or.inr h
      · rw [if_neg h] at hg
        exact Or.inl hg

theorem downCollect_len (mg : Finset Nat) (acc : List CGene) (curr : Option CGene) :
    (downCollect mg acc curr).length ≤ acc.length + 1 := by
  cases curr with
  | none => simp [downCollect]
  | some g' =>
      simp only [downCollect]
      split_ifs <;> simp

theorem upWalk_inv (c : Contig) (mg : Finset Nat) (part : Nat → String) (n : Nat)
    (init : Int) :
    ∀ (fuel : Nat) (pos : Int) (acc : List CGene),
      (∀ g ∈ acc, g.family ∉ mg ∧ part g.family = "persistent") →
      acc.length ≤ n →
      (∀ g ∈ (upWalk c mg part n init fuel pos acc).1,
        g.family ∉ mg ∧ part g.family = "persistent") ∧
      (upWalk c mg part n init fuel pos acc).1.length ≤ n := by
  intro fuel
  induction fuel with
  | zero =>
      intro pos acc h1 h2
      exact ⟨h1, h2⟩
  | succ f ih =>
      intro pos acc h1 h2
      simp only [upWalk]
      by_cases hguard : acc.length < n ∧ (pos ≠ 0 ∨ c.is_circular = true)
      · rw [if_pos hguard]
        have hacc' : ∀ (curr : Option CGene),
            (∀ g ∈ upCollect mg part acc curr,
              g.family ∉ mg ∧ part g.family = "persistent") ∧
            (upCollect mg part acc curr).length ≤ n := by
          intro curr
          constructor
          · intro g hg
            rcases upCollect_mem mg part acc curr g hg with h | h
            · exact h1 g h
            · exact h
          · have := upCollect_len mg part acc curr
            omega
        split <;> split
        all_goals first
          | exact hacc' _
          | exact ih _ _ (hacc' _).1 (hacc' _).2
      · rw [if_neg hguard]
        exact ⟨h1, h2⟩

theorem downWalk_inv (c : Contig) (mg : Finset Nat) (n : Nat) (init : Int) :
    ∀ (fuel : Nat) (pos : Int) (acc : List CGene),
      (∀ g ∈ acc, g.family ∉ mg) →
      acc.length ≤ n →
      (∀ g ∈ (downWalk c mg n init fuel pos acc).1, g.family ∉ mg) ∧
      (downWalk c mg n init fuel pos acc).1.length ≤ n := by
  intro fuel
  induction fuel with
  | zero =>
      intro pos acc h1 h2
      exact ⟨h1, h2⟩
  | succ f ih =>
      intro pos acc h1 h2
      simp only [downWalk]
      by_cases hguard : acc.length < n ∧ (pos ≠ (c.genes.length : Int) - 1 ∨ c.is_circular = true)
      · rw [if_pos hguard]
        have hacc' : ∀ (curr : Option CGene),
            (∀ g ∈ downCollect mg acc curr, g.family ∉ mg) ∧
            (downCollect mg acc curr).length ≤ n := by
          intro curr
          constructor
          · intro g hg
            rcases downCollect_mem mg acc curr g hg with h | h
            · exact h1 g h
            · exact h
          · have := downCollect_len mg acc curr
            omega
        split <;> split
        all_goals first
          | exact hacc' _
          | exact ih _ _ (hacc' _).1 (hacc' _).2
      · rw [if_neg hguard]
        exact ⟨h1, h2⟩

/-- C4 (counterexample): on the linear two-gene contig whose second gene's
family 11 is in the shell partition, with the region at position 0, n = 1
and no multigenics, the downstream border list collected by
`get_bordering_genes` is exactly that shell gene — the downstream loop does
not check `named_partition == "persistent"` — refuting the claim that every
collected gene, in the downstream border list too, has a persistent family. -/
theorem get_bordering_genes_shell_downstream :
    (get_bordering_genes c2lin ∅ partEx 1 0 0).2.1 = [⟨1, 11⟩] ∧
    partEx (⟨1, 11⟩ : CGene).family = "shell" :=
  ⟨rfl, rfl⟩

/-- C4 (amended): every gene collected by `get_bordering_genes(n,
multigenics)` in the upstream border list has a family that is in the
persistent partition and not in multigenics; every gene in the downstream
border list has a family not in multigenics (the downstream loop performs no
partition check); and each returned list has length at most n. -/
theorem get_bordering_genes_filters (c : Contig) (mg : Finset Nat)
    (part : Nat → String) (n : Nat) (startPos stopPos : Nat) :
    (∀ g ∈ (get_bordering_genes c mg part n startPos stopPos).1.1,
      g.family ∉ mg ∧ part g.family = "persistent") ∧
    (∀ g ∈ (get_bordering_genes c mg part n startPos stopPos).2.1, g.family ∉ mg) ∧
    (get_bordering_genes c mg part n startPos stopPos).1.1.length ≤ n ∧
    (get_bordering_genes c mg part n startPos stopPos).2.1.length ≤ n := by
  have hu := upWalk_inv c mg part n startPos (c.genes.length + 2) startPos []
    (by intro g hg; cases hg) (by simp)
  have hd := downWalk_inv c mg n stopPos (c.genes.length + 2) stopPos []
    (by intro g hg; cases hg) (by simp)
  exact ⟨hu.1, hd.1, hu.2, hd.2⟩

theorem upWalk_finishes (c : Contig) (mg : Finset Nat) (part : Nat → String)
    (n : Nat) (init : Int) (hcirc : c.is_circular = true)
    (h0i : 0 ≤ init) (hiL : init < (c.genes.length : Int)) :
    ∀ (fuel : Nat) (pos : Int) (acc : List CGene),
      0 ≤ pos → pos ≤ (c.genes.length : Int) →
      remUp (c.genes.length : Int) init pos < fuel →
      (upWalk c mg part n init fuel pos acc).2 = true := by
  intro fuel
  induction fuel with
  | zero =>
      intro pos acc hp0 hpL hrem
      exact absurd hrem (Nat.not_lt_zero _)
  | succ f ih =>
      intro pos acc hp0 hpL hrem
      simp only [upWalk]
      by_cases hguard : acc.length < n ∧ (pos ≠ 0 ∨ c.is_circular = true)
      · rw [if_pos hguard]
        by_cases hwrap : pos - 1 = -1 ∧ c.is_circular = true
        · rw [if_pos hwrap]
          by_cases hbreak : (c.genes.length : Int) = init
          · rw [if_pos hbreak]
          · rw [if_neg hbreak]
            have hpos0 : pos = 0 := by omega
            apply ih _ _ (by omega) le_rfl
            subst hpos0
            unfold remUp at hrem ⊢
            split_ifs at hrem ⊢ <;> omega
        · rw [if_neg hwrap]
          have hne : pos - 1 ≠ -1 := fun h => hwrap ⟨h, hcirc⟩
          by_cases hbreak : pos - 1 = init
          · rw [if_pos hbreak]
          · rw [if_neg hbreak]
            apply ih _ _ (by omega) (by omega)
            unfold remUp at hrem ⊢
            split_ifs at hrem ⊢ <;> omega
      · rw [if_neg hguard]

theorem downWalk_finishes (c : Contig) (mg : Finset Nat)
    (n : Nat) (init : Int) (hcirc : c.is_circular = true)
    (h0i : 0 ≤ init) (hiL : init < (c.genes.length : Int)) :
    ∀ (fuel : Nat) (pos : Int) (acc : List CGene),
      -1 ≤ pos → pos < (c.genes.length : Int) →
      remDown (c.genes.length : Int) init pos < fuel →
      (downWalk c mg n init fuel pos acc).2 = true := by
  intro fuel
  induction fuel with
  | zero =>
      intro pos acc hp0 hpL hrem
      exact absurd hrem (Nat.not_lt_zero _)
  | succ f ih =>
      intro pos acc hp0 hpL hrem
      simp only [downWalk]
      by_cases hguard : acc.length < n ∧ (pos ≠ (c.genes.length : Int) - 1 ∨ c.is_circular = true)
      · rw [if_pos hguard]
        by_cases hwrap : pos + 1 = (c.genes.length : Int) ∧ c.is_circular = true
        · rw [if_pos hwrap]
          by_cases hbreak : (-1 : Int) = init
          · rw [if_pos hbreak]
          · rw [if_neg hbreak]
            have hposL : pos = (c.genes.length : Int) - 1 := by omega
            apply ih _ _ (by omega) (by omega)
            subst hposL
            unfold remDown at hrem ⊢
            split_ifs at hrem ⊢ <;> omega
        · rw [if_neg hwrap]
          have hne : pos + 1 ≠ (c.genes.length : Int) := fun h => hwrap ⟨h, hcirc⟩
          by_cases hbreak : pos + 1 = init
          · rw [if_pos hbreak]
          · rw [if_neg hbreak]
            apply ih _ _ (by omega) (by omega)
            unfold remDown at hrem ⊢
            split_ifs at hrem ⊢ <;> omega
      · rw [if_neg hguard]

/-- C5 (counterexample): on the circular contig of length L = 3 with every
family persistent and no multigenics, n = 2 (so L ≤ 2n) and the region at
position 0, the two border lists hold 2 + 2 = 4 genes — the upstream walk
examines the wrap gene twice — exceeding the claimed bound L − 1 = 2. -/
theorem get_bordering_genes_exceeds_the_bound :
    c3ex.is_circular = true ∧ c3ex.genes.length ≤ 2 * 2 ∧
    (get_bordering_genes c3ex ∅ partAll 2 0 0).1.1.length +
      (get_bordering_genes c3ex ∅ partAll 2 0 0).2.1.length = 4 ∧
    ¬ ((get_bordering_genes c3ex ∅ partAll 2 0 0).1.1.length +
        (get_bordering_genes c3ex ∅ partAll 2 0 0).2.1.length ≤ c3ex.genes.length - 1) :=
  ⟨rfl, by decide, by decide, by decide⟩

/-- C5 (amended): for a region on a circular contig of length L with the
starter and stopper positions in range and L ≤ 2n, both walks of
`get_bordering_genes(n, multigenics)` terminate through their own guard or
the looped-back-to-start break (the provided fuel L + 2 is never exhausted),
and the two returned border lists together contain at most 2n genes (each
list at most n). -/
theorem get_bordering_genes_circular_total (c : Contig) (mg : Finset Nat)
    (part : Nat → String) (n : Nat) (startPos stopPos : Nat)
    (hcirc : c.is_circular = true)
    (h0 : startPos < c.genes.length) (h1 : stopPos < c.genes.length)
    (hL2n : c.genes.length ≤ 2 * n) :
    (get_bordering_genes c mg part n startPos stopPos).1.2 = true ∧
    (get_bordering_genes c mg part n startPos stopPos).2.2 = true ∧
    (get_bordering_genes c mg part n startPos stopPos).1.1.length +
      (get_bordering_genes c mg part n startPos stopPos).2.1.length ≤ 2 * n := by
  have hu := upWalk_finishes c mg part n startPos hcirc (by omega)
    (by exact_mod_cast h0) (c.genes.length + 2) startPos []
    (by omega) (by exact_mod_cast Nat.le_of_lt h0)
    (by unfold remUp; split_ifs <;> omega)
  have hd := downWalk_finishes c mg n stopPos hcirc (by omega)
    (by exact_mod_cast h1) (c.genes.length + 2) stopPos []
    (by omega) (by exact_mod_cast h1)
    (by unfold remDown; split_ifs <;> omega)
  have hul := upWalk_inv c mg part n startPos (c.genes.length + 2) startPos []
    (by intro g hg; cases hg) (by simp)
  have hdl := downWalk_inv c mg n stopPos (c.genes.length + 2) stopPos []
    (by intro g hg; cases hg) (by simp)
  simp only [get_bordering_genes]
  refine ⟨hu, hd, ?_⟩
  have := hul.2
  have := hdl.2
  omega

theorem get_bordering_genes_circular_total_witness :
    (get_bordering_genes c3ex ∅ partAll 2 0 0).1.2 = true ∧
    (get_bordering_genes c3ex ∅ partAll 2 0 0).2.2 = true ∧
    (get_bordering_genes c3ex ∅ partAll 2 0 0).1.1.length +
      (get_bordering_genes c3ex ∅ partAll 2 0 0).2.1.length ≤ 2 * 2 :=
  get_bordering_genes_circular_total c3ex ∅ partAll 2 0 0 rfl
    (by decide) (by decide) (by decide)

/-- Soundness invariant of the clique-search loop: along every branch, `Q`
is a clique of members of `S` adjacent to one another, `subg` is exactly the
set of searched families adjacent to all of `Q`, and `cand ⊆ subg`; hence
every list the loop yields consists of searched families, is pairwise
adjacent, and no searched family is adjacent to all of its members. -/
theorem bk_sound (G : Nat → List Nat) (S : List Nat)
    (hsym : ∀ a ∈ S, ∀ b ∈ S, a ∈ G b ↔ b ∈ G a) :
    ∀ (fuel : Nat) (Q subg cand ext : List Nat),
      (∀ f, f ∈ subg ↔ (f ∈ S ∧ ∀ v ∈ Q, f ∈ G v)) →
      (∀ f ∈ cand, f ∈ subg) →
      (∀ v ∈ Q, v ∈ S) →
      (∀ a ∈ Q, ∀ b ∈ Q, a ≠ b → b ∈ G a) →
      ∀ C ∈ bk G fuel Q subg cand ext,
        (∀ a ∈ C, a ∈ S) ∧
        (∀ a ∈ C, ∀ b ∈ C, a ≠ b → b ∈ G a) ∧
        (∀ f ∈ S, (∀ v ∈ C, f ∈ G v) → False) := by
  intro fuel
  induction fuel with
  | zero =>
      intro Q subg cand ext h1 h2 h3 h4 C hC
      simp only [bk] at hC
      cases hC
  | succ f ih =>
      intro Q subg cand ext h1 h2 h3 h4 C hC
      cases ext with
      | nil =>
          simp only [bk] at hC
          cases hC
      | cons q rest =>
          simp only [bk] at hC
          by_cases hq : q ∈ cand
          · rw [if_pos hq] at hC
            have hqsub : q ∈ subg := h2 q hq
            have hqS : q ∈ S := ((h1 q).mp hqsub).1
            have hqadjQ : ∀ v ∈ Q, q ∈ G v := ((h1 q).mp hqsub).2
            have h3' : ∀ v ∈ Q ++ [q], v ∈ S := by
              intro v hv
              rcases List.mem_append.mp hv with h | h
              · exact h3 v h
              · rw [List.mem_singleton] at h
                subst h
                exact hqS
            have h4' : ∀ a ∈ Q ++ [q], ∀ b ∈ Q ++ [q], a ≠ b → b ∈ G a := by
              intro a ha b hb hne
              rcases List.mem_append.mp ha with ha' | ha' <;>
                rcases List.mem_append.mp hb with hb' | hb'
              · exact h4 a ha' b hb' hne
              · rw [List.mem_singleton] at hb'
                subst hb'
                exact hqadjQ a ha'
              · rw [List.mem_singleton] at ha'
                subst ha'
                exact (hsym a hqS b (h3 b hb')).mp (hqadjQ b hb')
              · rw [List.mem_singleton] at ha' hb'
                subst ha'
                subst hb'
                exact absurd rfl hne
            rcases List.mem_append.mp hC with hC1 | hC2
            · by_cases hsub : subg.filter (fun v => v ∈ G q) = []
              · rw [if_pos hsub] at hC1
                rw [List.mem_singleton] at hC1
                subst hC1
                refine ⟨?_, h4', ?_⟩
                · intro a ha
                  exact h3' a ha
                · intro fm hfS hfadj
                  have hfsub : fm ∈ subg := (h1 fm).mpr
                    ⟨hfS, fun v hv => hfadj v (List.mem_append.mpr (Or.inl hv))⟩
                  have hfq : fm ∈ G q := hfadj q (List.mem_append.mpr (Or.inr (by simp)))
                  have hmem : fm ∈ subg.filter (fun v => v ∈ G q) := by
                    rw [List.mem_filter]
                    exact ⟨hfsub, by simpa using hfq⟩
                  rw [hsub] at hmem
                  cases hmem
              · rw [if_neg hsub] at hC1
                by_cases hcq : (cand.erase q).filter (fun v => v ∈ G q) = []
                · rw [if_pos hcq] at hC1
                  cases hC1
                · rw [if_neg hcq] at hC1
                  refine ih (Q ++ [q]) (subg.filter (fun v => v ∈ G q))
                    ((cand.erase q).filter (fun v => v ∈ G q)) _ ?_ ?_ h3' h4' C hC1
                  · intro fm
                    rw [List.mem_filter]
                    constructor
                    · rintro ⟨hfm, hfmq⟩
                      rcases (h1 fm).mp hfm with ⟨hfS, hfQ⟩
                      refine ⟨hfS, ?_⟩
                      intro v hv
                      rcases List.mem_append.mp hv with h | h
                      · exact hfQ v h
                      · rw [List.mem_singleton] at h
                        subst h
                        exact of_decide_eq_true hfmq
                    · rintro ⟨hfS, hfQq⟩
                      constructor
                      · exact (h1 fm).mpr ⟨hfS, fun v hv =>
                          hfQq v (List.mem_append.mpr (Or.inl hv))⟩
                      · exact decide_eq_true
                          (hfQq q (List.mem_append.mpr (Or.inr (by simp))))
                  · intro fm hfm
                    rw [List.mem_filter] at hfm ⊢
                    exact ⟨h2 fm (List.mem_of_mem_erase hfm.1), hfm.2⟩
            · exact ih Q subg (cand.erase q) rest h1
                (fun fm hf => h2 fm (List.mem_of_mem_erase hf)) h3 h4 C hC2
          · rw [if_neg hq] at hC
            exact ih Q subg cand rest h1 h2 h3 h4 C hC


/-- C1: every list yielded by `Pangenome.findCliques(fams)` is a clique —
any two distinct member families are neighbors of each other — and is
maximal: every family of the searched set (the given `fams`, or all gene
families when `fams` is empty) outside the clique fails to be adjacent to
some member. Adjacency is assumed symmetric on the searched set, which
`Edge.__init__` guarantees by registering each edge in both endpoint
neighbor maps. -/
theorem findCliques_sound (G : FamGraph) (fams : List Nat)
    (hsym : ∀ a ∈ searched G fams, ∀ b ∈ searched G fams,
      a ∈ G.nbrs b ↔ b ∈ G.nbrs a) :
    ∀ C ∈ findCliques G fams,
      (∀ a ∈ C, ∀ b ∈ C, a ≠ b → b ∈ G.nbrs a ∧ a ∈ G.nbrs b) ∧
      (∀ f ∈ searched G fams, f ∉ C → ∃ v ∈ C, f ∉ G.nbrs v) := by
  intro C hC
  unfold findCliques at hC
  by_cases hS : searched G fams = []
  · rw [if_pos hS] at hC
    cases hC
  · rw [if_neg hS] at hC
    have hmain := bk_sound G.nbrs (searched G fams) hsym
      (((searched G fams).length + 2) * ((searched G fams).length + 2))
      [] (searched G fams) (searched G fams)
      (extList G.nbrs (searched G fams) (searched G fams))
      (by intro fm; simp)
      (fun fm hf => hf)
      (by intro v hv; cases hv)
      (by intro a ha; cases ha)
      C hC
    refine ⟨?_, ?_⟩
    · intro a ha b hb hne
      exact ⟨hmain.2.1 a ha b hb hne, hmain.2.1 b hb a ha hne.symm⟩
    · intro fm hfS hfC
      by_contra hno
      push_neg at hno
      exact hmain.2.2 fm hfS hno

theorem findCliques_sound_witness :
    (∀ a ∈ [0, 1], ∀ b ∈ [0, 1], a ≠ b → b ∈ Gex.nbrs a ∧ a ∈ Gex.nbrs b) ∧
    (∀ f ∈ searched Gex [], f ∉ [0, 1] → ∃ v ∈ [0, 1], f ∉ Gex.nbrs v) :=
  findCliques_sound Gex [] (by decide) [0, 1] (by decide)
